import Mathlib

/-!
A shallow embedding of the Ashare_data daily-bar acquisition pipeline.

The embedding follows the Python sources:
* `cleanBar` embeds `DailyFetcher._clean` (src/fetchers/daily.py);
* `sortProviders`, `fetchFrom`, `dailyFetch`, `closeFrom`, `dailyClose`
  embed `DailyFetcher.__init__`, `DailyFetcher.fetch`, `DailyFetcher.close`;
* `upsertDailyBar`, `upsert_daily_bars`, `existingDates`,
  `missing_daily_dates` embed the daily-bar operations of `SQLiteStorage`
  (src/storage/sqlite.py), with the table modelled as a list of rows;
* `retryGo`, `async_retry` embed the retry decorator of
  src/utils/rate_limiter.py, with the awaited operation modelled as a
  sequence of outcomes and timer suspensions recorded in a sleep log;
* `initial_load_bars`, `run_initial_load` embed the bulk backfill of
  src/scheduler/initializer.py, recording the storage batch writes;
* `dictInsert`, `compute_missing`, `daily_update_fetches` embed
  `_compute_missing` and the fetch loop of src/scheduler/daily_update.py;
* `JVal`, `pyFloat`, `qq_parse_payload`, `em_parse_payload` and the
  surrounding helpers embed the payload parsing of src/providers/qq.py
  and src/providers/eastmoney.py, with Python `float()` on strings kept
  abstract as a `strParse` parameter.

Machine floats are modelled as rationals, `datetime.date` values as their
ISO-8601 strings (`isoformat` is injective), and a fallible Python call as
an `Except` value whose `error` case is an uncaught exception.
-/

/-- The `ProviderResult` dataclass of src/providers/base.py: one normalized
daily bar.  The Python field `open` is a Lean keyword and is rendered
`openPrice`; `raw` is the opaque audit payload, kept abstract as a string. -/
structure ProviderResult where
  symbol : String
  trade_date : String
  openPrice : ℚ
  high : ℚ
  low : ℚ
  close : ℚ
  volume : ℚ
  turnover : ℚ
  raw : String
deriving DecidableEq, Repr

/-- `DailyFetcher._clean`: `open = float(open or close)`,
`high = float(max(high, open, close))`, `low = float(min(low, open, close))`,
`close = float(close)`, `volume = float(volume or 0)`,
`turnover = float(turnover or 0)`.  Python `x or y` on numbers yields `y`
exactly when `x` is zero, and `high`/`low` are recomputed with the already
updated `open`. -/
def cleanBar (r : ProviderResult) : ProviderResult :=
  let o := if r.openPrice = 0 then r.close else r.openPrice
  { r with
    openPrice := o
    high := max r.high (max o r.close)
    low := min r.low (min o r.close)
    volume := if r.volume = 0 then 0 else r.volume
    turnover := if r.turnover = 0 then 0 else r.turnover }

/-- Auxiliary view of `Except` as a sum, used to decide equality. -/
def exceptToSum : Except ε α → ε ⊕ α
  | .error e => .inl e
  | .ok a => .inr a

instance (ε α : Type) [DecidableEq ε] [DecidableEq α] : DecidableEq (Except ε α) := fun a b =>
  decidable_of_iff (exceptToSum a = exceptToSum b) (by cases a <;> cases b <;> simp [exceptToSum])

/-- One provider as seen by `DailyFetcher`: its `priority` attribute, the
outcome of `await provider.fetch_daily(symbol, trade_date)` for the fetch
under consideration (`.error` = the call raised, `.ok none` = absent,
`.ok (some b)` = a bar), and whether `await provider.close()` succeeds. -/
structure Provider where
  priority : Int
  fetchOutcome : Except Unit (Option ProviderResult)
  closeOk : Bool
deriving DecidableEq, Repr

/-- The bar a provider delivers, if its `fetch_daily` returns one: `none`
both when the call raises and when it returns absent. -/
def providerBar (p : Provider) : Option ProviderResult :=
  match p.fetchOutcome with
  | .ok (some b) => some b
  | _ => none

/-- `DailyFetcher.__init__`:
`sorted(providers, key=lambda provider: provider.priority, reverse=True)`.
Python `sorted` is a stable sort; a stable descending sort is modelled by
insertion sort under the total preorder `b.priority ≤ a.priority`. -/
def sortProviders (ps : List Provider) : List Provider :=
  List.insertionSort (fun a b => b.priority ≤ a.priority) ps

/-- The loop body of `DailyFetcher.fetch`: walk the (already sorted)
provider list; a raising provider is caught and skipped, a falsy result
(`None`) is skipped, the first bar is normalized by `_clean` and returned;
an exhausted list yields `None`. -/
def fetchFrom : List Provider → Option ProviderResult
  | [] => none
  | p :: rest =>
    match p.fetchOutcome with
    | .ok (some b) => some (cleanBar b)
    | _ => fetchFrom rest

/-- `DailyFetcher.fetch` on a fetcher constructed from `ps`: the constructor
sorts the providers once, then `fetch` walks them in that order. -/
def dailyFetch (ps : List Provider) : Option ProviderResult :=
  fetchFrom (sortProviders ps)

/-- The loop body of `DailyFetcher.close`: `for provider in self._providers:
await provider.close()`.  There is no exception handling, so a raising
`close()` aborts the loop.  Returns the providers whose `close()` was
invoked, in order, together with the overall outcome. -/
def closeFrom : List Provider → List Provider × Except Unit Unit
  | [] => ([], .ok ())
  | p :: rest =>
    if p.closeOk then
      let done := closeFrom rest
      (p :: done.1, done.2)
    else ([p], .error ())

/-- `DailyFetcher.close` on a fetcher constructed from `ps`. -/
def dailyClose (ps : List Provider) : List Provider × Except Unit Unit :=
  closeFrom (sortProviders ps)

/-- Key comparison of the `daily_bars` primary key `(symbol, trade_date)`. -/
def sameKey (b r : ProviderResult) : Bool :=
  r.symbol == b.symbol && r.trade_date == b.trade_date

/-- One `INSERT ... ON CONFLICT(symbol, trade_date) DO UPDATE SET ...` row
write of `_upsert_daily_bars_sync`: on key collision every non-key column is
overwritten with the excluded (new) values, otherwise the row is inserted. -/
def upsertDailyBar (db : List ProviderResult) (b : ProviderResult) : List ProviderResult :=
  if db.any (sameKey b) then db.map (fun r => if sameKey b r then b else r)
  else db ++ [b]

/-- `SQLiteStorage.upsert_daily_bars`: `executemany` over the batch (an
empty batch returns before any I/O, which is the fold over `[]`). -/
def upsert_daily_bars (db : List ProviderResult) (bars : List ProviderResult) : List ProviderResult :=
  bars.foldl upsertDailyBar db

/-- `SQLiteStorage._existing_dates_sync`: the trade dates of all stored rows
of `symbol` (`SELECT trade_date FROM daily_bars WHERE symbol = ?`). -/
def existingDates (db : List ProviderResult) (symbol : String) : List String :=
  (db.filter (fun r => r.symbol == symbol)).map (fun r => r.trade_date)

/-- `SQLiteStorage.missing_daily_dates`: the candidate dates whose ISO form
is not among the stored dates of `symbol`, in candidate order. -/
def missing_daily_dates (db : List ProviderResult) (symbol : String) (dates : List String) : List String :=
  dates.filter (fun d => !(existingDates db symbol).contains d)

/-- Outcome of a call wrapped by the retry decorator: the wrapped value, the
underlying exception re-raised on the final attempt, or the unreachable
`RuntimeError("retry decorator failed unexpectedly")` after a loop over an
empty attempt range. -/
inductive RetryOutcome (ε α : Type) where
  | ok (a : α)
  | failed (e : ε)
  | unexpected
deriving DecidableEq, Repr

/-- The loop of the `async_retry` wrapper (src/utils/rate_limiter.py) with
`remaining` attempts left, calling the operation `op` (modelled as the
outcome of its `i`-th invocation) and doubling `delay` after each sleep.
Returns the outcome, the number of invocations of `op`, and the sleeps
performed, in order. -/
def retryGo (op : Nat → Except ε α) (i : Nat) (delay : ℚ) : Nat → RetryOutcome ε α × Nat × List ℚ
  | 0 => (.unexpected, 0, [])
  | remaining + 1 =>
    match op i with
    | .ok a => (.ok a, 1, [])
    | .error e =>
      if remaining = 0 then (.failed e, 1, [])
      else
        let rest := retryGo op (i + 1) (delay * 2) remaining
        (rest.1, rest.2.1 + 1, delay :: rest.2.2)

/-- `async_retry(attempts, base_delay)` applied to `op`: the Python loop
`for attempt in range(1, attempts + 1)` starting from `delay = base_delay`. -/
def async_retry (attempts : Nat) (base_delay : ℚ) (op : Nat → Except ε α) : RetryOutcome ε α × Nat × List ℚ :=
  retryGo op 0 base_delay attempts

/-- The per-symbol loop of `run_initial_load`: `bars = []`, then for every
calendar date append the fetched bar when the fetch produced one.  The
fetcher is modelled as a function, since `DailyFetcher.fetch` never raises. -/
def initial_load_bars (fetch : String → String → Option ProviderResult) (symbol : String) (calendar : List String) : List ProviderResult :=
  calendar.foldl (fun bars d => match fetch symbol d with | some b => bars ++ [b] | none => bars) []

/-- `run_initial_load` (src/scheduler/initializer.py): for each symbol
accumulate the successful bars over the whole calendar and, when the
accumulator is non-empty, perform one `storage.upsert_daily_bars(bars)`
batch write.  Returns the log of batch writes in order. -/
def run_initial_load (fetch : String → String → Option ProviderResult) (symbols : List String) (calendar : List String) : List (String × List ProviderResult) :=
  symbols.foldl (fun log symbol =>
    let bars := initial_load_bars fetch symbol calendar
    if bars.isEmpty then log else log ++ [(symbol, bars)]) []

/-- Closed form of the batch write `run_initial_load` performs for one
symbol: `none` when no calendar date fetched successfully, otherwise the
symbol paired with exactly its successful bars in calendar order. -/
def initialLoadBatch (fetch : String → String → Option ProviderResult) (calendar : List String) (s : String) : Option (String × List ProviderResult) :=
  if (calendar.filterMap (fetch s)).isEmpty then none
  else some (s, calendar.filterMap (fetch s))

/-- Whether at least one calendar date fetches successfully for `s`. -/
def hasData (fetch : String → String → Option ProviderResult) (calendar : List String) (s : String) : Bool :=
  !(calendar.filterMap (fetch s)).isEmpty

/-- Python dict assignment `result[symbol] = v` on an insertion-ordered map:
overwrite in place when the key exists, append otherwise. -/
def dictInsert (m : List (String × Bool)) (k : String) (v : Bool) : List (String × Bool) :=
  if m.any (fun kv => kv.1 == k) then m.map (fun kv => if kv.1 == k then (k, v) else kv)
  else m ++ [(k, v)]

/-- `bool(await storage.missing_daily_dates(symbol, [trade_date]))`. -/
def shouldFetch (db : List ProviderResult) (symbol : String) (d : String) : Bool :=
  !(missing_daily_dates db symbol [d]).isEmpty

/-- `_compute_missing` (src/scheduler/daily_update.py): one storage query
per element of `symbols`, results keyed by symbol in a dict.  Returns the
dict together with the number of `missing_daily_dates` storage queries. -/
def compute_missing (db : List ProviderResult) (symbols : List String) (d : String) : List (String × Bool) × Nat :=
  symbols.foldl (fun acc symbol => (dictInsert acc.1 symbol (shouldFetch db symbol d), acc.2 + 1)) ([], 0)

/-- The symbols `run_daily_update` fetches: the dict entries whose flag is
set, in dict order (`for symbol, should_fetch in missing_map.items()`). -/
def daily_update_fetches (db : List ProviderResult) (symbols : List String) (d : String) : List String :=
  (((compute_missing db symbols d).1.filter (fun kv => kv.2)).map (fun kv => kv.1))

/-- Generalized-accumulator form of the `_compute_missing` fold, for
induction: starting from dict `m` and query counter `n`. -/
def computeMissingFrom (db : List ProviderResult) (d : String) (symbols : List String) (m : List (String × Bool)) (n : Nat) : List (String × Bool) × Nat :=
  symbols.foldl (fun acc symbol => (dictInsert acc.1 symbol (shouldFetch db symbol d), acc.2 + 1)) (m, n)

/-- A JSON value, as produced by `response.json()`. -/
inductive JVal where
  | jnull
  | jbool (b : Bool)
  | jnum (q : ℚ)
  | jstr (s : String)
  | jarr (xs : List JVal)
  | jobj (fields : List (String × JVal))

/-- Python truthiness of a JSON value: `None`, `False`, `0`, `""`, `[]` and
`{}` are falsy. -/
def pyTruthy : JVal → Bool
  | .jnull => false
  | .jbool b => b
  | .jnum q => decide (q ≠ 0)
  | .jstr s => decide (s ≠ "")
  | .jarr xs => !xs.isEmpty
  | .jobj fields => !fields.isEmpty

/-- `dict.get(k)` on a JSON object: `none` when the key is absent. -/
def jget (fields : List (String × JVal)) (k : String) : Option JVal :=
  (fields.find? (fun kv => kv.1 == k)).map (fun kv => kv.2)

/-- `bar.get(k1, bar.get(k2, d))`: the value under `k1` when that key is
present (even when it is `null`), else the value under `k2`, else `d`. -/
def jget2 (fields : List (String × JVal)) (k1 k2 : String) (d : JVal) : JVal :=
  (jget fields k1).getD ((jget fields k2).getD d)

/-- Python `float(v)` on a JSON value: numbers pass through, booleans are
`1`/`0`, strings go through the abstract numeric-literal reader `strParse`
(raising `ValueError` when unreadable), everything else raises `TypeError`
(in particular `float(None)` for a missing field). -/
def pyFloat (strParse : String → Option ℚ) : JVal → Except Unit ℚ
  | .jnum q => .ok q
  | .jbool b => .ok (if b then 1 else 0)
  | .jstr s => match strParse s with | some q => .ok q | none => .error ()
  | _ => .error ()

/-- `payload.get("data") or {}` (shared by both providers). -/
def payloadData (payload : List (String × JVal)) : JVal :=
  match jget payload "data" with
  | some v => if pyTruthy v then v else .jobj []
  | none => .jobj []

/-- The record selection of `QQProvider._parse_payload`: when `data` has a
non-empty list under `"diff"` the bar is its first entry, otherwise `data`
itself; calling `.get` on a non-dict `data` raises `AttributeError`. -/
def qqSelectBar (data : JVal) : Except Unit JVal :=
  match data with
  | .jobj fields =>
    match jget fields "diff" with
    | some (.jarr (x :: _)) => .ok x
    | _ => .ok data
  | _ => .error ()

/-- The four price conversions of `QQProvider._parse_payload`, the part that
sits inside `try: ... except (TypeError, ValueError)`. -/
def qqPriced (strParse : String → Option ℚ) (bf : List (String × JVal)) : Except Unit (ℚ × ℚ × ℚ × ℚ) := do
  let o ← pyFloat strParse (jget2 bf "open" "openPrice" .jnull)
  let h ← pyFloat strParse (jget2 bf "high" "highest" .jnull)
  let l ← pyFloat strParse (jget2 bf "low" "lowest" .jnull)
  let c ← pyFloat strParse (jget2 bf "close" "price" .jnull)
  pure (o, h, l, c)

/-- `QQProvider._parse_payload`.  A failing price conversion is caught and
yields `None`; the `volume`/`turnover` conversions happen after the
`try` block, so their failures (and `.get` on non-dict data) propagate. -/
def qq_parse_payload (strParse : String → Option ℚ) (symbol trade_date : String) (payload : List (String × JVal)) : Except Unit (Option ProviderResult) :=
  let data := payloadData payload
  if !pyTruthy data then .ok none
  else
    match qqSelectBar data with
    | .error e => .error e
    | .ok bar =>
      match bar with
      | .jobj bf =>
        match qqPriced strParse bf with
        | .error _ => .ok none
        | .ok (o, h, l, c) => do
          let v ← pyFloat strParse (jget2 bf "volume" "vol" (.jnum 0))
          let t ← pyFloat strParse (jget2 bf "turnover" "turn" (.jnum 0))
          .ok (some { symbol := symbol, trade_date := trade_date, openPrice := o,
                      high := h, low := l, close := c, volume := v, turnover := t, raw := "" })
      | _ => .error ()

/-- `QQProvider.fetch_daily` after the network payload arrived:
`if not payload: return None` then `_parse_payload`. -/
def qq_fetch_daily (strParse : String → Option ℚ) (symbol trade_date : String) (payload : List (String × JVal)) : Except Unit (Option ProviderResult) :=
  if payload.isEmpty then .ok none
  else qq_parse_payload strParse symbol trade_date payload

/-- Python `for row in klines` over a JSON value: lists iterate entries,
strings iterate their characters, dicts iterate their keys, and every other
truthy value raises `TypeError`. -/
def pyIter : JVal → Except Unit (List JVal)
  | .jarr xs => .ok xs
  | .jstr s => .ok (s.toList.map (fun c => JVal.jstr c.toString))
  | .jobj fields => .ok (fields.map (fun kv => JVal.jstr kv.1))
  | _ => .error ()

/-- Python `row.startswith(date_str)`, on the character lists of the two
strings. -/
def pyStartsWith (s dateStr : String) : Bool :=
  dateStr.data.isPrefixOf s.data

/-- Python `target.split(",")` on a character list: split at every comma,
keeping empty groups (so `"".split(",") == [""]`). -/
def splitAtComma : List Char → List (List Char)
  | [] => [[]]
  | c :: rest =>
    let r := splitAtComma rest
    if c = ',' then [] :: r
    else
      match r with
      | [] => [[c]]
      | g :: gs => (c :: g) :: gs

/-- Python `target.split(",")`. -/
def pySplitComma (s : String) : List String :=
  (splitAtComma s.data).map (fun cs => String.mk cs)

/-- The kline-row search of `EastMoneyProvider._parse_payload`: skip
non-string rows, take the first row starting with the requested date. -/
def emFindKline (dateStr : String) : List JVal → Option String
  | [] => none
  | .jstr s :: rest => if pyStartsWith s dateStr then some s else emFindKline dateStr rest
  | _ :: rest => emFindKline dateStr rest

/-- The `try` block of `EastMoneyProvider._parse_payload`: unpack the first
seven comma-joined fields `date,open,close,high,low,volume,turnover` and
convert; caught `ValueError`/`TypeError` (too few fields or an unreadable
number) yields `None`. -/
def emParseKline (strParse : String → Option ℚ) (symbol trade_date target : String) : Option ProviderResult :=
  match (pySplitComma target).take 7 with
  | [_d, o, c, h, l, v, t] =>
    match strParse o, strParse h, strParse l, strParse c, strParse v, strParse t with
    | some oq, some hq, some lq, some cq, some vq, some tq =>
      some { symbol := symbol, trade_date := trade_date, openPrice := oq,
             high := hq, low := lq, close := cq, volume := vq, turnover := tq, raw := "" }
    | _, _, _, _, _, _ => none
  | _ => none

/-- `EastMoneyProvider._parse_payload`. -/
def em_parse_payload (strParse : String → Option ℚ) (symbol trade_date : String) (payload : List (String × JVal)) : Except Unit (Option ProviderResult) :=
  match payloadData payload with
  | .jobj df =>
    match jget df "klines" with
    | none => .ok none
    | some kl =>
      if !pyTruthy kl then .ok none
      else
        match pyIter kl with
        | .error e => .error e
        | .ok rows =>
          match emFindKline trade_date rows with
          | none => .ok none
          | some target => .ok (emParseKline strParse symbol trade_date target)
  | _ => .error ()

/-- `EastMoneyProvider.fetch_daily` after the network payload arrived. -/
def em_fetch_daily (strParse : String → Option ℚ) (symbol trade_date : String) (payload : List (String × JVal)) : Except Unit (Option ProviderResult) :=
  if payload.isEmpty then .ok none
  else em_parse_payload strParse symbol trade_date payload

/-- Every bar `DailyFetcher.fetch`'s provider walk returns passed through
`_clean`. -/
theorem fetchFrom_some_clean : ∀ (l : List Provider) (r : ProviderResult),
    fetchFrom l = some r → ∃ b, r = cleanBar b := by
  intro l
  induction l with
  | nil => intro r h; simp [fetchFrom] at h
  | cons p rest ih =>
    intro r h
    cases hp : p.fetchOutcome with
    | ok ob =>
      cases ob with
      | some b =>
        simp only [fetchFrom, hp] at h
        exact ⟨b, (Option.some_injective _ h).symm⟩
      | none =>
        simp only [fetchFrom, hp] at h
        exact ih r h
    | error e =>
      simp only [fetchFrom, hp] at h
      exact ih r h

/-- C1: after normalization by `_clean`, `low ≤ open ≤ high` and
`low ≤ close ≤ high` hold, the normalized high is the maximum of the raw
high and the bar's open and close, the normalized low is the minimum of the
raw low and the bar's open and close, and every bar `DailyFetcher.fetch`
returns is a `_clean`-normalized bar. -/
theorem clean_bar_bounds :
    (∀ r : ProviderResult,
      (cleanBar r).low ≤ (cleanBar r).openPrice ∧ (cleanBar r).openPrice ≤ (cleanBar r).high ∧
      (cleanBar r).low ≤ (cleanBar r).close ∧ (cleanBar r).close ≤ (cleanBar r).high ∧
      (cleanBar r).high = max r.high (max (cleanBar r).openPrice (cleanBar r).close) ∧
      (cleanBar r).low = min r.low (min (cleanBar r).openPrice (cleanBar r).close)) ∧
    (∀ (ps : List Provider) (r : ProviderResult), dailyFetch ps = some r → ∃ b, r = cleanBar b) := by
  constructor
  · intro r
    refine ⟨?_, ?_, ?_, ?_, rfl, rfl⟩
    · exact (min_le_right _ _).trans (min_le_left _ _)
    · exact (le_max_left _ _).trans (le_max_right _ _)
    · exact (min_le_right _ _).trans (min_le_right _ _)
    · exact (le_max_right _ _).trans (le_max_right _ _)
  · intro ps r h
    exact fetchFrom_some_clean _ r h

/-- Witness for C1: a concrete one-provider fetch returns a cleaned bar,
and that bar satisfies the low-open bound. -/
theorem clean_bar_bounds_witness :
    (∃ b, cleanBar ⟨"000001", "2024-01-02", 5, 9, 2, 7, 100, 1000, "r"⟩ = cleanBar b) ∧
    (cleanBar ⟨"000001", "2024-01-02", 5, 9, 2, 7, 100, 1000, "r"⟩).low ≤
      (cleanBar ⟨"000001", "2024-01-02", 5, 9, 2, 7, 100, 1000, "r"⟩).openPrice :=
  ⟨clean_bar_bounds.2 [⟨10, .ok (some ⟨"000001", "2024-01-02", 5, 9, 2, 7, 100, 1000, "r"⟩), true⟩]
      _ rfl,
    (clean_bar_bounds.1 _).1⟩

/-- C9: when the raw open is falsy (zero), `_clean` replaces it with the
close before recomputing high and low — a default the spec only grants to
volume and turnover. -/
theorem clean_defaults_open_to_close (r : ProviderResult) (h : r.openPrice = 0) :
    (cleanBar r).openPrice = r.close ∧ (cleanBar r).high = max r.high r.close ∧
    (cleanBar r).low = min r.low r.close := by
  simp [cleanBar, h]

/-- Witness for C9 at a concrete zero-open bar. -/
theorem clean_defaults_open_to_close_witness :
    (cleanBar ⟨"000001", "2024-01-02", 0, 4, 1, 3, 0, 0, "r"⟩).openPrice = 3 ∧
    (cleanBar ⟨"000001", "2024-01-02", 0, 4, 1, 3, 0, 0, "r"⟩).high = max 4 3 ∧
    (cleanBar ⟨"000001", "2024-01-02", 0, 4, 1, 3, 0, 0, "r"⟩).low = min 1 3 :=
  clean_defaults_open_to_close _ rfl

/-- One step of the retry loop with at least one attempt left. -/
theorem retryGo_succ (op : Nat → Except ε α) (i : Nat) (delay : ℚ) (n : Nat) :
    retryGo op i delay (n + 1) =
      match op i with
      | .ok a => (.ok a, 1, [])
      | .error e =>
        if n = 0 then (.failed e, 1, [])
        else
          let rest := retryGo op (i + 1) (delay * 2) n
          (rest.1, rest.2.1 + 1, delay :: rest.2.2) := rfl

/-- On an always-failing operation the retry loop with `remaining ≥ 1`
attempts left performs exactly `remaining` invocations, sleeps
`delay * 2^j` after the `j+1`-st failure, and ends re-raising the last
error. -/
theorem retryGo_always_fails (op : Nat → Except ε α) (e : Nat → ε) (hop : ∀ i, op i = .error (e i)) :
    ∀ (remaining : Nat), 1 ≤ remaining → ∀ (i : Nat) (delay : ℚ),
      retryGo op i delay remaining =
        (.failed (e (i + (remaining - 1))), remaining,
          (List.range (remaining - 1)).map (fun j => delay * 2 ^ j)) := by
  intro remaining
  induction remaining with
  | zero => omega
  | succ n ih =>
    intro _ i delay
    match n with
    | 0 => rw [retryGo_succ, hop i]; simp
    | m + 1 =>
      have hrec := ih (by omega) (i + 1) (delay * 2)
      rw [retryGo_succ, hop i]
      dsimp only
      rw [if_neg (by omega), hrec]
      simp only [Nat.add_sub_cancel, Prod.mk.injEq, and_true, true_and]
      refine ⟨?_, ?_⟩
      · have harith : i + 1 + m = i + (m + 1) := by omega
        rw [harith]
      · rw [List.range_succ_eq_map, List.map_cons, List.map_map]
        have hhead : delay * 2 ^ 0 = delay := by norm_num
        rw [hhead]
        congr 1
        apply List.map_congr_left
        intro j _
        simp only [Function.comp_apply]
        rw [Nat.succ_eq_add_one, pow_succ]
        ring

/-- C5: `async_retry(attempts, base_delay)` on an always-failing operation
invokes it exactly `attempts` times, sleeps `base_delay * 2^(i-1)` after the
`i`-th failure for `i < attempts`, and propagates the last underlying error
unchanged. -/
theorem async_retry_exhausts_attempts (attempts : Nat) (b : ℚ) (op : Nat → Except ε α)
    (e : Nat → ε) (h1 : 1 ≤ attempts) (hop : ∀ i, op i = .error (e i)) :
    async_retry attempts b op =
      (.failed (e (attempts - 1)), attempts,
        (List.range (attempts - 1)).map (fun j => b * 2 ^ j)) := by
  have h := retryGo_always_fails op e hop attempts h1 0 b
  simpa [async_retry] using h

/-- Inserting a provider into a list leaves the sublist of any fixed
priority `k` unchanged except for prepending the inserted provider when its
priority is `k`: the elements skipped over all have strictly greater
priority. -/
theorem orderedInsert_filter_key (p : Provider) (l : List Provider) (k : Int) :
    (List.orderedInsert (fun a b => b.priority ≤ a.priority) p l).filter
        (fun q => q.priority == k) =
      if p.priority == k
      then p :: l.filter (fun q => q.priority == k)
      else l.filter (fun q => q.priority == k) := by
  rw [List.orderedInsert_eq_take_drop, List.filter_append, List.filter_cons]
  by_cases hk : (p.priority == k) = true
  · rw [if_pos hk, if_pos hk]
    have hpk : p.priority = k := by simpa using hk
    have htw : (l.takeWhile fun b => decide ¬(b.priority ≤ p.priority)).filter
        (fun q => q.priority == k) = [] := by
      rw [List.filter_eq_nil_iff]
      intro x hx
      have h1 := List.mem_takeWhile_imp hx
      have h2 : ¬(x.priority ≤ p.priority) := by simpa using h1
      simp only [beq_iff_eq]
      omega
    rw [htw, List.nil_append]
    congr 1
    conv_rhs =>
      rw [← List.takeWhile_append_dropWhile (fun b => decide ¬(b.priority ≤ p.priority)) l]
    rw [List.filter_append, htw, List.nil_append]
  · rw [if_neg hk, if_neg hk]
    conv_rhs =>
      rw [← List.takeWhile_append_dropWhile (fun b => decide ¬(b.priority ≤ p.priority)) l]
    rw [List.filter_append]

/-- Stability of the provider sort: for every priority the providers of that
priority appear in their original relative order. -/
theorem sortProviders_filter_key (ps : List Provider) (k : Int) :
    (sortProviders ps).filter (fun p => p.priority == k) =
      ps.filter (fun p => p.priority == k) := by
  induction ps with
  | nil => rfl
  | cons p ps ih =>
    have hstep : sortProviders (p :: ps) =
        List.orderedInsert (fun a b => b.priority ≤ a.priority) p (sortProviders ps) := rfl
    rw [hstep, orderedInsert_filter_key, List.filter_cons]
    by_cases hk : (p.priority == k) = true
    · rw [if_pos hk, if_pos hk, ih]
    · rw [if_neg hk, if_neg hk, ih]

/-- Providers that raise or return absent are skipped by the fetch walk. -/
theorem fetchFrom_append_none (l1 l2 : List Provider) (h : ∀ q ∈ l1, providerBar q = none) :
    fetchFrom (l1 ++ l2) = fetchFrom l2 := by
  induction l1 with
  | nil => rfl
  | cons q l1 ih =>
    have hq := h q (List.mem_cons_self q l1)
    have hrest : ∀ x ∈ l1, providerBar x = none := fun x hx => h x (List.mem_cons_of_mem _ hx)
    rw [List.cons_append]
    cases hout : q.fetchOutcome with
    | ok ob =>
      cases ob with
      | some b => simp [providerBar, hout] at hq
      | none =>
        simp only [fetchFrom, hout]
        exact ih hrest
    | error e =>
      simp only [fetchFrom, hout]
      exact ih hrest

/-- The fetch walk returns absent exactly when every provider on the list
raises or returns absent. -/
theorem fetchFrom_eq_none_iff (l : List Provider) :
    fetchFrom l = none ↔ ∀ p ∈ l, providerBar p = none := by
  induction l with
  | nil => simp [fetchFrom]
  | cons p rest ih =>
    cases hout : p.fetchOutcome with
    | ok ob =>
      cases ob with
      | some b =>
        simp only [fetchFrom, hout]
        constructor
        · intro h
          simp at h
        · intro h
          have hp := h p (List.mem_cons_self _ _)
          simp [providerBar, hout] at hp
      | none =>
        simp only [fetchFrom, hout]
        rw [ih]
        constructor
        · intro h x hx
          rcases List.mem_cons.mp hx with rfl | hx'
          · simp [providerBar, hout]
          · exact h x hx'
        · intro h x hx
          exact h x (List.mem_cons_of_mem _ hx)
    | error e =>
      simp only [fetchFrom, hout]
      rw [ih]
      constructor
      · intro h x hx
        rcases List.mem_cons.mp hx with rfl | hx'
        · simp [providerBar, hout]
        · exact h x hx'
      · intro h x hx
        exact h x (List.mem_cons_of_mem _ hx)

/-- C2: `DailyFetcher` sorts providers descending by priority once (stable
on ties), `fetch` returns the normalized bar of the first provider in that
order that yields one — skipping raising and absent providers and never
consulting later ones — and returns absent, never raising, exactly when all
providers fail or return absent. -/
theorem daily_fetch_priority_fallback (ps : List Provider) :
    List.Sorted (fun a b => b.priority ≤ a.priority) (sortProviders ps) ∧
    List.Perm (sortProviders ps) ps ∧
    (∀ k : Int, (sortProviders ps).filter (fun p => p.priority == k) =
      ps.filter (fun p => p.priority == k)) ∧
    (∀ (l1 : List Provider) (p : Provider) (l2 : List Provider) (b : ProviderResult),
      sortProviders ps = l1 ++ p :: l2 → (∀ q ∈ l1, providerBar q = none) →
      p.fetchOutcome = .ok (some b) → dailyFetch ps = some (cleanBar b)) ∧
    (dailyFetch ps = none ↔ ∀ p ∈ ps, providerBar p = none) := by
  haveI htot : IsTotal Provider (fun a b => b.priority ≤ a.priority) :=
    ⟨fun a b => Int.le_total b.priority a.priority⟩
  haveI htrans : IsTrans Provider (fun a b => b.priority ≤ a.priority) :=
    ⟨fun a b c h1 h2 => le_trans h2 h1⟩
  refine ⟨List.sorted_insertionSort _ _, List.perm_insertionSort _ _,
    sortProviders_filter_key ps, ?_, ?_⟩
  · intro l1 p l2 b hsort hnone hp
    rw [dailyFetch, hsort, fetchFrom_append_none l1 (p :: l2) hnone]
    simp [fetchFrom, hp]
  · rw [dailyFetch, fetchFrom_eq_none_iff]
    constructor
    · intro h p hp
      exact h p ((List.mem_insertionSort _).mpr hp)
    · intro h p hp
      exact h p ((List.mem_insertionSort _).mp hp)

/-- Witness for C2: priority 10 fails, priority 5 has a bar, the result is
the cleaned bar of the priority-5 provider. -/
theorem daily_fetch_priority_fallback_witness :
    dailyFetch [⟨10, .error (), true⟩,
        ⟨5, .ok (some ⟨"000001", "2024-01-02", 1, 2, 1, 2, 0, 0, "r"⟩), true⟩] =
      some (cleanBar ⟨"000001", "2024-01-02", 1, 2, 1, 2, 0, 0, "r"⟩) :=
  (daily_fetch_priority_fallback _).2.2.2.1 [⟨10, .error (), true⟩]
    ⟨5, .ok (some ⟨"000001", "2024-01-02", 1, 2, 1, 2, 0, 0, "r"⟩), true⟩ [] _
    (by decide) (by decide) rfl

/-- The close loop invokes provider closes up to and including the first
failing one, and succeeds exactly when none fails. -/
theorem closeFrom_spec (l : List Provider) :
    (closeFrom l).1 =
      l.takeWhile (fun p => p.closeOk) ++ (l.dropWhile (fun p => p.closeOk)).take 1 ∧
    ((closeFrom l).2 = .ok () ↔ ∀ p ∈ l, p.closeOk = true) := by
  induction l with
  | nil => simp [closeFrom]
  | cons p rest ih =>
    cases hc : p.closeOk with
    | true =>
      have hstep : closeFrom (p :: rest) = (p :: (closeFrom rest).1, (closeFrom rest).2) := by
        rw [closeFrom, if_pos hc]
      rw [hstep]
      constructor
      · rw [ih.1]
        simp [List.takeWhile_cons, List.dropWhile_cons, hc]
      · rw [ih.2]
        constructor
        · intro h x hx
          rcases List.mem_cons.mp hx with rfl | hx'
          · exact hc
          · exact h x hx'
        · intro h x hx
          exact h x (List.mem_cons_of_mem _ hx)
    | false =>
      have hstep : closeFrom (p :: rest) = ([p], .error ()) := by
        rw [closeFrom, if_neg (by simp [hc])]
      rw [hstep]
      constructor
      · simp [List.takeWhile_cons, List.dropWhile_cons, hc]
      · constructor
        · intro h
          exact Except.noConfusion h
        · intro h
          have hp := h p (List.mem_cons_self _ _)
          rw [hc] at hp
          exact absurd hp (by simp)

/-- C8 amended: `DailyFetcher.close` invokes provider closes in sorted order
only up to and including the first provider whose `close()` raises — the
exception propagates and the remaining providers are not closed; all
providers are closed exactly when no close fails. -/
theorem close_invocation_spec (ps : List Provider) :
    (dailyClose ps).1 =
      (sortProviders ps).takeWhile (fun p => p.closeOk) ++
        ((sortProviders ps).dropWhile (fun p => p.closeOk)).take 1 ∧
    ((dailyClose ps).2 = .ok () ↔ ∀ p ∈ ps, p.closeOk = true) := by
  refine ⟨(closeFrom_spec (sortProviders ps)).1, ?_⟩
  rw [show (dailyClose ps).2 = (closeFrom (sortProviders ps)).2 from rfl,
    (closeFrom_spec (sortProviders ps)).2]
  constructor
  · intro h p hp
    exact h p ((List.mem_insertionSort _).mpr hp)
  · intro h p hp
    exact h p ((List.mem_insertionSort _).mp hp)

/-- C8 counterexample: when the priority-10 provider's `close()` raises, the
priority-5 provider's `close()` is never invoked and the failure propagates,
so a close failure is fatal to the remaining close calls. -/
theorem close_stops_after_failure_cex :
    (dailyClose [⟨10, .ok none, false⟩, ⟨5, .ok none, true⟩]).1 = [⟨10, .ok none, false⟩] ∧
    (⟨5, .ok none, true⟩ : Provider) ∉ (dailyClose [⟨10, .ok none, false⟩, ⟨5, .ok none, true⟩]).1 ∧
    (dailyClose [⟨10, .ok none, false⟩, ⟨5, .ok none, true⟩]).2 = .error () := by
  decide

/-- Generalized-accumulator form of the per-symbol bar loop of
`run_initial_load`. -/
theorem initial_load_bars_go (fetch : String → String → Option ProviderResult) (s : String) :
    ∀ (calendar : List String) (acc : List ProviderResult),
      calendar.foldl
          (fun bars d => match fetch s d with | some b => bars ++ [b] | none => bars) acc =
        acc ++ calendar.filterMap (fetch s) := by
  intro calendar
  induction calendar with
  | nil => intro acc; simp
  | cons d cal ih =>
    intro acc
    cases hd : fetch s d with
    | some b =>
      simp only [List.foldl_cons, List.filterMap_cons, hd, ih]
      simp
    | none =>
      simp only [List.foldl_cons, List.filterMap_cons, hd, ih]

/-- The bars accumulated for one symbol are exactly the successful fetches
over the calendar, in calendar order. -/
theorem initial_load_bars_eq (fetch : String → String → Option ProviderResult) (s : String)
    (calendar : List String) :
    initial_load_bars fetch s calendar = calendar.filterMap (fetch s) := by
  have h := initial_load_bars_go fetch s calendar []
  simpa [initial_load_bars] using h

/-- A fold appending the value of each successful `g` step equals appending
the `filterMap` of `g`. -/
theorem foldl_filterMap_append {α β : Type} (g : α → Option β) :
    ∀ (l : List α) (acc : List β),
      l.foldl (fun acc' x => (g x).elim acc' (fun b => acc' ++ [b])) acc =
        acc ++ l.filterMap g := by
  intro l
  induction l with
  | nil => intro acc; simp
  | cons x l ih =>
    intro acc
    rw [List.foldl_cons, List.filterMap_cons]
    cases hg : g x with
    | none => exact ih acc
    | some b =>
      show List.foldl _ (acc ++ [b]) l = acc ++ (b :: l.filterMap g)
      rw [ih]
      simp

/-- When no calendar date fetched successfully, no batch is produced. -/
theorem initialLoadBatch_of_empty (fetch : String → String → Option ProviderResult)
    (calendar : List String) (s : String)
    (h : (calendar.filterMap (fetch s)).isEmpty = true) :
    initialLoadBatch fetch calendar s = none := by
  rw [initialLoadBatch, if_pos h]

/-- When some calendar date fetched successfully, the batch holds exactly
the successful bars. -/
theorem initialLoadBatch_of_nonempty (fetch : String → String → Option ProviderResult)
    (calendar : List String) (s : String)
    (h : (calendar.filterMap (fetch s)).isEmpty = false) :
    initialLoadBatch fetch calendar s = some (s, calendar.filterMap (fetch s)) := by
  rw [initialLoadBatch, if_neg (by rw [h]; simp)]

/-- The write log of `run_initial_load` in closed form. -/
theorem run_initial_load_eq (fetch : String → String → Option ProviderResult)
    (symbols calendar : List String) :
    run_initial_load fetch symbols calendar =
      symbols.filterMap (initialLoadBatch fetch calendar) := by
  have hf : (fun (log : List (String × List ProviderResult)) symbol =>
      let bars := initial_load_bars fetch symbol calendar
      if bars.isEmpty then log else log ++ [(symbol, bars)]) =
      (fun log symbol =>
        (initialLoadBatch fetch calendar symbol).elim log (fun w => log ++ [w])) := by
    funext log symbol
    simp only [initial_load_bars_eq, initialLoadBatch]
    cases hs : (calendar.filterMap (fetch symbol)).isEmpty <;> rfl
  rw [run_initial_load, hf]
  have h := foldl_filterMap_append (initialLoadBatch fetch calendar) symbols []
  simpa using h

/-- `hasData` restated on the two sides of the `isEmpty` split. -/
theorem hasData_of_empty (fetch : String → String → Option ProviderResult)
    (calendar : List String) (s : String)
    (h : (calendar.filterMap (fetch s)).isEmpty = true) :
    hasData fetch calendar s = false := by
  rw [hasData, h]
  rfl

/-- `hasData` holds when some calendar date fetches successfully. -/
theorem hasData_of_nonempty (fetch : String → String → Option ProviderResult)
    (calendar : List String) (s : String)
    (h : (calendar.filterMap (fetch s)).isEmpty = false) :
    hasData fetch calendar s = true := by
  rw [hasData, h]
  rfl

/-- The written symbols are exactly those with at least one successful
fetch, in input order. -/
theorem filterMap_batch_keys (fetch : String → String → Option ProviderResult)
    (calendar : List String) :
    ∀ symbols : List String,
      (symbols.filterMap (initialLoadBatch fetch calendar)).map Prod.fst =
      symbols.filter (hasData fetch calendar) := by
  intro symbols
  induction symbols with
  | nil => rfl
  | cons s rest ih =>
    rw [List.filterMap_cons, List.filter_cons]
    cases hs : (calendar.filterMap (fetch s)).isEmpty with
    | true =>
      rw [initialLoadBatch_of_empty fetch calendar s hs, hasData_of_empty fetch calendar s hs]
      exact ih
    | false =>
      rw [initialLoadBatch_of_nonempty fetch calendar s hs,
        hasData_of_nonempty fetch calendar s hs]
      exact congrArg (List.cons s) ih

/-- C6: `run_initial_load` produces exactly one batch write per symbol that
had at least one successful fetch — the batch holding exactly that symbol's
successful bars — and no write for a symbol with none. -/
theorem run_initial_load_single_batch (fetch : String → String → Option ProviderResult)
    (symbols calendar : List String) :
    run_initial_load fetch symbols calendar =
      symbols.filterMap (initialLoadBatch fetch calendar) ∧
    (run_initial_load fetch symbols calendar).map Prod.fst =
      symbols.filter (hasData fetch calendar) ∧
    (symbols.Nodup → ((run_initial_load fetch symbols calendar).map Prod.fst).Nodup) ∧
    (∀ s bars, (s, bars) ∈ run_initial_load fetch symbols calendar →
      bars = calendar.filterMap (fetch s) ∧ bars ≠ []) := by
  have h1 := run_initial_load_eq fetch symbols calendar
  have h2 : (run_initial_load fetch symbols calendar).map Prod.fst =
      symbols.filter (hasData fetch calendar) := by
    rw [h1]
    exact filterMap_batch_keys fetch calendar symbols
  refine ⟨h1, h2, ?_, ?_⟩
  · intro hnd
    rw [h2]
    exact hnd.filter _
  · intro s bars hmem
    rw [h1] at hmem
    obtain ⟨a, ha, hg⟩ := List.mem_filterMap.mp hmem
    cases hae : (calendar.filterMap (fetch a)).isEmpty with
    | true =>
      rw [initialLoadBatch_of_empty fetch calendar a hae] at hg
      exact absurd hg (by simp)
    | false =>
      rw [initialLoadBatch_of_nonempty fetch calendar a hae] at hg
      have hg' : (a, calendar.filterMap (fetch a)) = (s, bars) := Option.some_injective _ hg
      rw [Prod.mk.injEq] at hg'
      obtain ⟨h3, h4⟩ := hg'
      subst h3
      subst h4
      refine ⟨rfl, ?_⟩
      intro hnil
      rw [hnil] at hae
      simp at hae

/-- Witness for C6: one symbol over a five-day window with three successful
days yields a write log with distinct symbols. -/
theorem run_initial_load_single_batch_witness :
    ((run_initial_load
        (fun s d => if d == "2024-01-02" || d == "2024-01-04" then none
          else some ⟨s, d, 1, 1, 1, 1, 0, 0, "r"⟩)
        ["000001"]
        ["2024-01-01", "2024-01-02", "2024-01-03", "2024-01-04", "2024-01-05"]).map
      Prod.fst).Nodup :=
  (run_initial_load_single_batch _ _ _).2.2.1 (by decide)

/-- Looking up a stored date via the per-symbol date set equals searching
the rows for a matching `(symbol, trade_date)` key. -/
theorem existingDates_contains (db : List ProviderResult) (s d : String) :
    (existingDates db s).contains d = db.any (fun r => r.symbol == s && r.trade_date == d) := by
  rw [Bool.eq_iff_iff]
  simp only [List.elem_eq_mem, decide_eq_true_eq, existingDates, List.mem_map, List.mem_filter,
    List.any_eq_true, Bool.and_eq_true, beq_iff_eq]
  constructor
  · rintro ⟨r, ⟨hr, hs⟩, hd⟩
    exact ⟨r, hr, hs, hd⟩
  · rintro ⟨r, hr, hs, hd⟩
    exact ⟨r, ⟨hr, hs⟩, hd⟩

/-- After an upsert of `b` some stored row carries `b`'s key. -/
theorem upsertDailyBar_any_key (db : List ProviderResult) (b : ProviderResult) :
    (upsertDailyBar db b).any (sameKey b) = true := by
  by_cases hany : db.any (sameKey b) = true
  · rw [upsertDailyBar, if_pos hany, List.any_map]
    obtain ⟨r, hr, hkey⟩ := List.any_eq_true.mp hany
    refine List.any_eq_true.mpr ⟨r, hr, ?_⟩
    simp only [Function.comp_apply, hkey, if_true]
    simp [sameKey]
  · rw [upsertDailyBar, if_neg hany, List.any_append]
    simp [sameKey]

/-- C3: `missing_daily_dates` is a sublist of the candidate dates, equals
exactly the candidates with no stored row for the symbol, and any date just
upserted for the symbol is excluded from subsequent calls. -/
theorem missing_daily_dates_spec (db : List ProviderResult) (s : String) (D : List String) :
    List.Sublist (missing_daily_dates db s D) D ∧
    missing_daily_dates db s D =
      D.filter (fun d => !db.any (fun r => r.symbol == s && r.trade_date == d)) ∧
    ∀ b : ProviderResult, b.symbol = s →
      b.trade_date ∉ missing_daily_dates (upsert_daily_bars db [b]) s D := by
  refine ⟨List.filter_sublist D, ?_, ?_⟩
  · refine List.filter_congr ?_
    intro d _
    rw [existingDates_contains]
  · intro b hb hmem
    have h2 : (upsert_daily_bars db [b]).any
        (fun r => r.symbol == s && r.trade_date == b.trade_date) = true := by
      have h := upsertDailyBar_any_key db b
      simpa [upsert_daily_bars, sameKey, hb] using h
    have h3 := (List.mem_filter.mp hmem).2
    rw [existingDates_contains, h2] at h3
    simp at h3

/-- Witness for C3: upserting a bar removes its date from the missing set. -/
theorem missing_daily_dates_spec_witness :
    "2024-01-02" ∉
      missing_daily_dates
        (upsert_daily_bars [] [⟨"000001", "2024-01-02", 1, 1, 1, 1, 0, 0, "r"⟩])
        "000001" ["2024-01-02", "2024-01-03"] :=
  (missing_daily_dates_spec [] "000001" ["2024-01-02", "2024-01-03"]).2.2
    ⟨"000001", "2024-01-02", 1, 1, 1, 1, 0, 0, "r"⟩ rfl

/-- A bar matches its own key. -/
theorem sameKey_self (b : ProviderResult) : sameKey b b = true := by
  simp [sameKey]

/-- Rows not matching `b`'s key are left unchanged by the conflict-update
map, so a key-free table stays key-free. -/
theorem map_keep_filter_nil (db : List ProviderResult) (b : ProviderResult)
    (h : db.filter (sameKey b) = []) :
    (db.map (fun r => if sameKey b r then b else r)).filter (sameKey b) = [] := by
  rw [List.filter_eq_nil_iff] at h ⊢
  intro x hx
  obtain ⟨r, hr, rfl⟩ := List.mem_map.mp hx
  have hnr := h r hr
  rw [if_neg hnr]
  exact hnr

/-- Upserting `b` into a table holding at most one row with `b`'s key leaves
exactly the row `b` under that key. -/
theorem upsertDailyBar_filter_key (db : List ProviderResult) (b : ProviderResult)
    (hu : (db.filter (sameKey b)).length ≤ 1) :
    (upsertDailyBar db b).filter (sameKey b) = [b] := by
  induction db with
  | nil => simp [upsertDailyBar, sameKey]
  | cons r db ih =>
    cases hr : sameKey b r with
    | true =>
      have hany : (r :: db).any (sameKey b) = true := by simp [hr]
      have hfilters : db.filter (sameKey b) = [] := by
        rw [List.filter_cons_of_pos hr, List.length_cons] at hu
        exact List.length_eq_zero.mp (by omega)
      have hnil := map_keep_filter_nil db b hfilters
      rw [upsertDailyBar, if_pos hany]
      simp only [List.map_cons, hr, if_true, List.filter_cons]
      simp [sameKey_self, hnil]
    | false =>
      have hfcons : (r :: db).filter (sameKey b) = db.filter (sameKey b) := by
        simp [List.filter_cons, hr]
      rw [hfcons] at hu
      have ihdb := ih hu
      cases hany : db.any (sameKey b) with
      | true =>
        have hany' : (r :: db).any (sameKey b) = true := by simp [hany]
        rw [upsertDailyBar, if_pos hany']
        rw [upsertDailyBar, if_pos hany] at ihdb
        simp only [List.map_cons, hr, if_false, List.filter_cons]
        simpa [hr] using ihdb
      | false =>
        have hany' : ¬((r :: db).any (sameKey b) = true) := by simp [hany, hr]
        rw [upsertDailyBar, if_neg hany']
        have hdbnil : db.filter (sameKey b) = [] := by
          rw [List.filter_eq_nil_iff]
          intro x hx
          exact (List.any_eq_false.mp hany) x hx
        simp [List.filter_append, List.filter_cons, hr, hdbnil, sameKey_self]

/-- C4: upserting `b1` then `b2` on the same `(symbol, trade_date)` key into
a table satisfying the primary-key invariant leaves exactly one row for that
key, all of whose fields are `b2`'s (last-write-wins, no merge). -/
theorem upsert_last_write_wins (db : List ProviderResult) (b1 b2 : ProviderResult)
    (hs : b1.symbol = b2.symbol) (hd : b1.trade_date = b2.trade_date)
    (hu : (db.filter (sameKey b2)).length ≤ 1) :
    (upsert_daily_bars (upsert_daily_bars db [b1]) [b2]).filter (sameKey b2) = [b2] := by
  have hkey : sameKey b1 = sameKey b2 := by
    funext r
    simp [sameKey, hs, hd]
  have h1 : (upsertDailyBar db b1).filter (sameKey b1) = [b1] :=
    upsertDailyBar_filter_key db b1 (by rw [hkey]; exact hu)
  have h2 : ((upsertDailyBar db b1).filter (sameKey b2)).length ≤ 1 := by
    rw [← hkey, h1]
    simp
  have h3 := upsertDailyBar_filter_key (upsertDailyBar db b1) b2 h2
  simpa [upsert_daily_bars] using h3

/-- Witness for C4 at two concrete same-key bars with different fields. -/
theorem upsert_last_write_wins_witness :
    (upsert_daily_bars
        (upsert_daily_bars [] [⟨"000001", "2024-01-02", 1, 2, 1, 2, 10, 10, "a"⟩])
        [⟨"000001", "2024-01-02", 3, 4, 3, 4, 20, 20, "b"⟩]).filter
      (sameKey ⟨"000001", "2024-01-02", 3, 4, 3, 4, 20, 20, "b"⟩) =
      [⟨"000001", "2024-01-02", 3, 4, 3, 4, 20, 20, "b"⟩] :=
  upsert_last_write_wins [] ⟨"000001", "2024-01-02", 1, 2, 1, 2, 10, 10, "a"⟩
    ⟨"000001", "2024-01-02", 3, 4, 3, 4, 20, 20, "b"⟩ rfl rfl (by simp)

/-- Witness for C5: three attempts with base delay 1 invoke the operation
three times, sleep 1 then 2 units, and re-raise the third error. -/
theorem async_retry_exhausts_attempts_witness :
    async_retry 3 1 (fun i => (Except.error i : Except Nat Unit)) =
      (.failed 2, 3, [(1 : ℚ), 2]) := by
  have h := async_retry_exhausts_attempts 3 1 (fun i => (Except.error i : Except Nat Unit))
    (fun i => i) (by omega) (fun i => rfl)
  rw [h]
  norm_num [List.range_succ]

/-- A dict assignment whose value agrees with the flag of its key is the
identity when the key is present, an append when it is not. -/
theorem dictInsert_flag (flag : String → Bool) (m : List (String × Bool)) (k : String)
    (hm : ∀ kv ∈ m, kv.2 = flag kv.1) :
    dictInsert m k (flag k) =
      if m.any (fun kv => kv.1 == k) then m else m ++ [(k, flag k)] := by
  rw [dictInsert]
  by_cases h : m.any (fun kv => kv.1 == k) = true
  · rw [if_pos h, if_pos h]
    conv_rhs => rw [← List.map_id m]
    apply List.map_congr_left
    intro kv hkv
    by_cases hk : (kv.1 == k) = true
    · rw [if_pos hk]
      have h1 : kv.1 = k := by simpa using hk
      have h2 := hm kv hkv
      cases kv with
      | mk a b =>
        dsimp only at h1 h2 ⊢
        subst h1
        rw [h2]
        rfl
    · rw [if_neg hk]
      rfl
  · rw [if_neg h, if_neg h]

/-- The `_compute_missing` fold counts one storage query per input symbol,
keeps its dict keyed without duplicates, and holds exactly the
first-occurrence entries with their missing-date flag. -/
theorem computeMissingFrom_spec (db : List ProviderResult) (d : String) :
    ∀ (symbols : List String) (m : List (String × Bool)) (n : Nat),
      (∀ kv ∈ m, kv.2 = shouldFetch db kv.1 d) → (m.map Prod.fst).Nodup →
      (computeMissingFrom db d symbols m n).2 = n + symbols.length ∧
      ((computeMissingFrom db d symbols m n).1.map Prod.fst).Nodup ∧
      (∀ k v, (k, v) ∈ (computeMissingFrom db d symbols m n).1 ↔
        ((k, v) ∈ m ∨ (k ∈ symbols ∧ v = shouldFetch db k d))) := by
  intro symbols
  induction symbols with
  | nil =>
    intro m n hm hnd
    refine ⟨by simp [computeMissingFrom], hnd, ?_⟩
    intro k v
    simp [computeMissingFrom]
  | cons s rest ih =>
    intro m n hm hnd
    rw [show computeMissingFrom db d (s :: rest) m n =
      computeMissingFrom db d rest (dictInsert m s (shouldFetch db s d)) (n + 1) from rfl]
    rw [dictInsert_flag (fun x => shouldFetch db x d) m s hm]
    by_cases hmem : m.any (fun kv => kv.1 == s) = true
    · rw [if_pos hmem]
      obtain ⟨h1, h2, h3⟩ := ih m (n + 1) hm hnd
      refine ⟨by rw [h1]; simp; omega, h2, ?_⟩
      intro k v
      rw [h3 k v]
      constructor
      · rintro (h | ⟨hk, hv⟩)
        · exact Or.inl h
        · exact Or.inr ⟨List.mem_cons_of_mem _ hk, hv⟩
      · rintro (h | ⟨hk, hv⟩)
        · exact Or.inl h
        · rcases List.mem_cons.mp hk with rfl | hk'
          · left
            obtain ⟨kv, hkvm, hbeq⟩ := List.any_eq_true.mp hmem
            have hb1 : kv.1 = k := by simpa using hbeq
            have hb2 : kv.2 = shouldFetch db kv.1 d := hm kv hkvm
            have hkv : kv = (k, v) := by
              rw [Prod.ext_iff]
              constructor
              · exact hb1
              · show kv.2 = v
                rw [hb2, hb1]
                exact hv.symm
            rw [← hkv]
            exact hkvm
          · exact Or.inr ⟨hk', hv⟩
    · rw [if_neg hmem]
      have hm' : ∀ kv ∈ m ++ [(s, shouldFetch db s d)], kv.2 = shouldFetch db kv.1 d := by
        intro kv hkv
        rcases List.mem_append.mp hkv with h | h
        · exact hm kv h
        · have hkv2 : kv = (s, shouldFetch db s d) := by simpa using h
          rw [hkv2]
      have hnd' : ((m ++ [(s, shouldFetch db s d)]).map Prod.fst).Nodup := by
        rw [List.map_append]
        refine hnd.append (by simp) ?_
        intro a ham hasin
        have ha : a = s := by simpa using hasin
        subst ha
        obtain ⟨kv, hkvm, hfst⟩ := List.mem_map.mp ham
        exact hmem (List.any_eq_true.mpr ⟨kv, hkvm, by simpa using hfst⟩)
      obtain ⟨h1, h2, h3⟩ := ih (m ++ [(s, shouldFetch db s d)]) (n + 1) hm' hnd'
      refine ⟨by rw [h1]; simp; omega, h2, ?_⟩
      intro k v
      rw [h3 k v]
      constructor
      · rintro (h | ⟨hk, hv⟩)
        · rcases List.mem_append.mp h with h' | h'
          · exact Or.inl h'
          · have hh : (k, v) = (s, shouldFetch db s d) := by simpa using h'
            rw [Prod.mk.injEq] at hh
            refine Or.inr ⟨?_, ?_⟩
            · rw [hh.1]
              exact List.mem_cons_self _ _
            · rw [hh.1]
              exact hh.2
        · exact Or.inr ⟨List.mem_cons_of_mem _ hk, hv⟩
      · rintro (h | ⟨hk, hv⟩)
        · exact Or.inl (List.mem_append.mpr (Or.inl h))
        · rcases List.mem_cons.mp hk with rfl | hk'
          · exact Or.inl (List.mem_append.mpr (Or.inr (by simp [hv])))
          · exact Or.inr ⟨hk', hv⟩

/-- C10 amended: `_compute_missing` queries storage once per occurrence of a
symbol in the input list (not once per distinct symbol), but its dict is
keyed by symbol, so `run_daily_update` fetches each distinct symbol at most
once per run. -/
theorem daily_update_dedup_fetches (db : List ProviderResult) (symbols : List String) (d : String) :
    (compute_missing db symbols d).2 = symbols.length ∧
    ((compute_missing db symbols d).1.map Prod.fst).Nodup ∧
    (∀ k v, (k, v) ∈ (compute_missing db symbols d).1 ↔
      (k ∈ symbols ∧ v = shouldFetch db k d)) ∧
    (∀ s, s ∈ daily_update_fetches db symbols d ↔ (s ∈ symbols ∧ shouldFetch db s d = true)) ∧
    (∀ s, (daily_update_fetches db symbols d).count s ≤ 1) := by
  obtain ⟨h1, h2, h3⟩ := computeMissingFrom_spec db d symbols [] 0 (by simp) (by simp)
  have heq : compute_missing db symbols d = computeMissingFrom db d symbols [] 0 := rfl
  have h3' : ∀ k v, (k, v) ∈ (compute_missing db symbols d).1 ↔
      (k ∈ symbols ∧ v = shouldFetch db k d) := by
    intro k v
    rw [heq, h3 k v]
    simp
  have hkeys : ((compute_missing db symbols d).1.map Prod.fst).Nodup := by
    rw [heq]
    exact h2
  have hfnodup : (daily_update_fetches db symbols d).Nodup := by
    have hsub : List.Sublist ((compute_missing db symbols d).1.filter (fun kv => kv.2))
        (compute_missing db symbols d).1 := List.filter_sublist _
    have hsubmap := hsub.map (fun kv => kv.1)
    exact hkeys.sublist hsubmap
  refine ⟨by rw [heq, h1]; simp, hkeys, h3', ?_, ?_⟩
  · intro s
    constructor
    · intro hs
      simp only [daily_update_fetches] at hs
      obtain ⟨kv, hkvf, hfst⟩ := List.mem_map.mp hs
      obtain ⟨hkvm, hsnd⟩ := List.mem_filter.mp hkvf
      cases kv with
      | mk a b =>
        dsimp only at hfst hsnd
        subst hfst
        obtain ⟨hmem, hval⟩ := (h3' a b).mp hkvm
        rw [hval] at hsnd
        exact ⟨hmem, hsnd⟩
    · rintro ⟨hs1, hs2⟩
      simp only [daily_update_fetches]
      refine List.mem_map.mpr ⟨(s, true), ?_, rfl⟩
      refine List.mem_filter.mpr ⟨?_, rfl⟩
      exact (h3' s true).mpr ⟨hs1, hs2.symm⟩
  · intro s
    exact List.nodup_iff_count_le_one.mp hfnodup s

/-- C10 counterexample: with one distinct symbol appearing twice in the
input, storage's `missing_daily_dates` is queried twice, not once. -/
theorem daily_update_storage_checks_cex :
    (compute_missing [] ["000001", "000001"] "2024-01-02").2 = 2 ∧
    (["000001", "000001"] : List String).dedup = ["000001"] := by
  decide

/-- Witness for C10's amended claim: each distinct symbol is fetched at most
once even when it occurs twice in the input. -/
theorem daily_update_dedup_fetches_witness :
    (daily_update_fetches [] ["000001", "000001"] "2024-01-02").count "000001" ≤ 1 :=
  (daily_update_dedup_fetches [] ["000001", "000001"] "2024-01-02").2.2.2.2 "000001"

/-- C7 counterexample: a QQ record whose required prices parse but whose
`volume` is `null` makes `fetch_daily` raise (`float(None)` is evaluated
outside the `try` block), instead of yielding absent. -/
theorem qq_parse_raises_on_malformed_volume :
    qq_fetch_daily (fun _ => none) "000001" "2024-01-02"
      [("data", .jobj [("open", .jnum 1), ("high", .jnum 2), ("low", .jnum 1),
        ("close", .jnum 2), ("volume", .jnull)])] = .error () := by
  decide

/-- C7 amended: for both providers a record whose required price fields are
missing or non-numeric yields absent from `fetch_daily` (the price
conversions are guarded by `try`); QQ's volume/turnover conversions are not
so guarded. -/
theorem parse_malformed_price_absent :
    (∀ (strParse : String → Option ℚ) (sym d : String)
        (payload bf : List (String × JVal)),
      payload ≠ [] → pyTruthy (payloadData payload) = true →
      qqSelectBar (payloadData payload) = .ok (.jobj bf) →
      qqPriced strParse bf = .error () →
      qq_fetch_daily strParse sym d payload = .ok none) ∧
    (∀ (strParse : String → Option ℚ) (sym d : String)
        (payload df : List (String × JVal)) (kl : JVal) (rows : List JVal) (target : String),
      payload ≠ [] → payloadData payload = .jobj df →
      jget df "klines" = some kl → pyTruthy kl = true → pyIter kl = .ok rows →
      emFindKline d rows = some target → emParseKline strParse sym d target = none →
      em_fetch_daily strParse sym d payload = .ok none) := by
  constructor
  · intro strParse sym d payload bf hne htr hsel hpr
    cases payload with
    | nil => exact absurd rfl hne
    | cons p ps =>
      rw [show qq_fetch_daily strParse sym d (p :: ps) =
        qq_parse_payload strParse sym d (p :: ps) from rfl]
      simp [qq_parse_payload, htr, hsel, hpr]
  · intro strParse sym d payload df kl rows target hne hdata hkl htr hiter hfind hkline
    cases payload with
    | nil => exact absurd rfl hne
    | cons p ps =>
      rw [show em_fetch_daily strParse sym d (p :: ps) =
        em_parse_payload strParse sym d (p :: ps) from rfl]
      simp [em_parse_payload, hdata, hkl, htr, hiter, hfind, hkline]

/-- Witness for C7's amended claim: a QQ record missing all price keys and
an EastMoney kline with too few comma-joined fields both yield absent. -/
theorem parse_malformed_price_absent_witness :
    qq_fetch_daily (fun _ => none) "000001" "2024-01-02"
        [("data", .jobj [("close", .jnum 1)])] = .ok none ∧
    em_fetch_daily (fun _ => none) "000001" "2024-01-02"
        [("data", .jobj [("klines", .jarr [.jstr "2024-01-02,1,2"])])] = .ok none := by
  constructor
  · exact parse_malformed_price_absent.1 (fun _ => none) "000001" "2024-01-02" _
      [("close", JVal.jnum 1)] (List.cons_ne_nil _ _) rfl rfl rfl
  · exact parse_malformed_price_absent.2 (fun _ => none) "000001" "2024-01-02" _
      [("klines", JVal.jarr [JVal.jstr "2024-01-02,1,2"])]
      (JVal.jarr [JVal.jstr "2024-01-02,1,2"]) [JVal.jstr "2024-01-02,1,2"]
      "2024-01-02,1,2" (List.cons_ne_nil _ _) rfl rfl rfl rfl (by decide) (by decide)
